import Mathlib

/-!
Shallow embedding of the AI dev-doc assistant microservice
(`agent_with_custom_history.py`, `memory.py`, `tools/math_tools.py`,
`tools/rag_tool.py`) and proofs about its documented behaviour.

Python values are embedded as follows: strings stay `String`, Python ints
become `Nat`, relevance scores and numeric tool arguments become `Rat`,
exceptions become `Except`, and `None`-able values become `Option`.
Collaborators that live outside the repository (the chat model, the vector
store) are passed in as explicit function arguments.
-/

namespace DevDoc

/-! ## Messages (`langchain_core.messages`, as used by the repository) -/

/-- The message variants handled by `ConversationSummaryBufferMessageHistory`:
only the constructor (`SystemMessage` or not) and the `content` field are
inspected by the code under verification. -/
inductive BaseMessage where
  | system (content : String)
  | human (content : String)
  | ai (content : String)
  | tool (content : String)
  deriving DecidableEq, Repr

def BaseMessage.content : BaseMessage → String
  | .system c => c
  | .human c => c
  | .ai c => c
  | .tool c => c

def BaseMessage.isSystem : BaseMessage → Bool
  | .system _ => true
  | _ => false

/-- Number of stored non-System (non-summary) messages. -/
def nonSystemCount (l : List BaseMessage) : Nat :=
  (l.filter (fun m => !m.isSystem)).length

/-- Python slice `l[-k:]` for `k : Nat`: for `k = 0` the slice `l[-0:]` is
`l[0:]`, i.e. the whole list; for `k > 0` it is the last `min k (length l)`
elements. -/
def pySliceLast (k : Nat) (l : List BaseMessage) : List BaseMessage :=
  if k = 0 then l else l.drop (l.length - k)

/-- `ConversationSummaryBufferMessageHistory.add_messages`
(`agent_with_custom_history.py` lines 53-92; `memory.py` lines 13-48 is the
same algorithm).  The summarization model call `self.llm.invoke(...)` is
embedded as the abstract function `summarize`, applied to the previous
summary text (or `""`) and the evicted messages' contents joined with
newlines — exactly the two template variables of `summary_prompt`. -/
def add_messages (summarize : String → String → String) (k : Nat)
    (stored : List BaseMessage) (msgs : List BaseMessage) : List BaseMessage :=
  -- `if len(self.messages) > 0 and isinstance(self.messages[0], SystemMessage):
  --    existing_summary = self.messages.pop(0)`
  let popped : Option String × List BaseMessage :=
    match stored with
    | .system c :: rest => (some c, rest)
    | _ => (none, stored)
  let existingSummary := popped.1
  -- `self.messages.extend(messages)`
  let buf := popped.2 ++ msgs
  if buf.length > k then
    -- `num_to_drop = len(self.messages) - self.k`
    let numToDrop := buf.length - k
    -- `old_messages = self.messages[:num_to_drop]`
    let oldMessages := buf.take numToDrop
    -- `self.messages = self.messages[-self.k:]`
    let kept := pySliceLast k buf
    let newSummary := summarize (existingSummary.getD "")
      (String.intercalate "\n" (oldMessages.map BaseMessage.content))
    -- `self.messages = [SystemMessage(content=new_summary.content)] + self.messages`
    .system newSummary :: kept
  else
    -- `if old_messages is None: return` — the popped summary is not reattached
    buf

/-! ## Math tools (`tools/math_tools.py`) -/

/-- `subtract` (`tools/math_tools.py` lines 21-24): `return y - x`. -/
def subtract (x y : Rat) : Rat := y - x

/-- The result of `evaluate_expression`'s inner `safe_eval`: Python returns
either a `float` or an error string. -/
inductive EvalResult where
  | num (v : Rat)
  | err (s : String)
  deriving DecidableEq, Repr

def EvalResult.isErr : EvalResult → Bool
  | .num _ => false
  | .err _ => true

/-- The compiled form of an expression, as `safe_eval` observes it:
`code.co_names` (the identifiers the compiled code references) and the
outcome of `eval(code, {"__builtins__": {}}, allowed_names)` followed by
`float(result)` — abstracted as an `Except`, since `safe_eval` only runs it
after the name check passes and converts any raise into an error string. -/
structure CompiledExpr where
  co_names : List String
  run : Except String Rat

/-- `allowed_names`: the (non-dunder) names of the `math` module, plus
`abs` and `round` (`tools/math_tools.py` lines 34-35).  The math-module
names are a parameter: the code reads them from `math.__dict__` at run
time. -/
def allowedNames (mathNames : List String) : List String :=
  mathNames ++ ["abs", "round"]

/-- `safe_eval` inside `evaluate_expression` (`tools/math_tools.py` lines
37-48).  `compile` may itself raise (a `compiled = .error e` input); then
the `for name in code.co_names` loop raises `NameError` at the first name
not in `allowed_names`; only if all names pass is the compiled code run.
Every raise is caught by the `except` clause and returned as
`f"Error: {e}"`. -/
def safe_eval (allowed : List String) (compiled : Except String CompiledExpr) :
    EvalResult :=
  match compiled with
  | .error e => .err ("Error: " ++ e)
  | .ok c =>
    match c.co_names.find? (fun n => !allowed.contains n) with
    | some n => .err ("Error: Use of '" ++ n ++ "' not allowed in math expressions.")
    | none =>
      match c.run with
      | .error e => .err ("Error: " ++ e)
      | .ok v => .num v

/-! ## Retrieval tool (`tools/rag_tool.py`) -/

/-- One `(chunk, score)` pair returned by
`similarity_search_with_relevance_scores`. -/
structure RetrievedChunk where
  page_content : String
  score : Rat
  deriving DecidableEq, Repr

def THRESHOLD : Rat := 7 / 10

/-- `retrieval_tool` (`tools/rag_tool.py` lines 14-71), parameterised by the
vector store's answer `results` for the query.  Chunks scoring below
`THRESHOLD` are skipped (`if score < THRESHOLD: continue`); if nothing was
retrieved, or every candidate was skipped, the sentinel string is
returned. -/
def retrieval_tool (results : List RetrievedChunk) : String :=
  if results.isEmpty then "No relevant documents found."
  else
    let top_texts :=
      (results.filter (fun c => !decide (c.score < THRESHOLD))).map
        RetrievedChunk.page_content
    if top_texts.isEmpty then "No relevant documents found."
    else String.intercalate "\n\n---NEXT-CHUNK---\n\n" top_texts

/-! ## Streaming handler (`QueueCallbackHandler`,
`agent_with_custom_history.py` lines 132-159) -/

/-- One entry of a streamed chunk's `additional_kwargs["tool_calls"]` list,
as inspected by the handler: only `["function"]["name"]` is read. -/
structure ToolCallDelta where
  name : String
  deriving DecidableEq, Repr

/-- The `chunk.message` payload as the handler sees it. -/
structure ChunkMsg where
  tool_calls : List ToolCallDelta
  deriving DecidableEq, Repr

/-- An item on the relay queue: a forwarded chunk (`put_nowait(kwargs.get("chunk"))`,
which may be `None`), or one of the two terminal markers. -/
inductive QItem where
  | chunk (c : Option ChunkMsg)
  | done
  | stepEnd
  deriving DecidableEq, Repr

def QItem.isTerminal : QItem → Bool
  | .done => true
  | .stepEnd => true
  | .chunk _ => false

structure HandlerState where
  queue : List QItem
  final_answer_seen : Bool
  deriving DecidableEq, Repr

/-- `__init__`: empty queue, `final_answer_seen = False`. -/
def handlerInit : HandlerState := ⟨[], false⟩

/-- The test in `on_llm_new_token`: `chunk` is truthy, its
`additional_kwargs.get("tool_calls")` is truthy (non-empty), and
`tool_calls[0]["function"]["name"] == "final_answer"`. -/
def chunkSignalsFinalAnswer : Option ChunkMsg → Bool
  | some c =>
    match c.tool_calls with
    | d :: _ => d.name == "final_answer"
    | [] => false
  | none => false

/-- `on_llm_new_token` (lines 148-153): possibly set `final_answer_seen`,
then always enqueue the chunk. -/
def on_llm_new_token (s : HandlerState) (chunk : Option ChunkMsg) : HandlerState :=
  { queue := s.queue ++ [.chunk chunk],
    final_answer_seen := s.final_answer_seen || chunkSignalsFinalAnswer chunk }

/-- `on_llm_end` (lines 155-159): enqueue `<<DONE>>` if `final_answer_seen`,
else `<<STEP_END>>`.  The flag is not reset. -/
def on_llm_end (s : HandlerState) : HandlerState :=
  { queue := s.queue ++ [if s.final_answer_seen then QItem.done else QItem.stepEnd],
    final_answer_seen := s.final_answer_seen }

/-- One model turn as the handler experiences it: a sequence of
`on_llm_new_token` calls followed by exactly one `on_llm_end` when the
turn's stream closes. -/
def processTurn (s : HandlerState) (turn : List (Option ChunkMsg)) : HandlerState :=
  on_llm_end (turn.foldl on_llm_new_token s)

def runTurns (s : HandlerState) (turns : List (List (Option ChunkMsg))) : HandlerState :=
  turns.foldl processTurn s

/-- The terminal marker `on_llm_end` enqueues for a turn started in state `s`. -/
def turnMarker (s : HandlerState) (turn : List (Option ChunkMsg)) : QItem :=
  if (turn.foldl on_llm_new_token s).final_answer_seen then QItem.done else QItem.stepEnd

/-- The sequence of terminal markers produced for a sequence of turns. -/
def markersFrom (s : HandlerState) : List (List (Option ChunkMsg)) → List QItem
  | [] => []
  | t :: ts => turnMarker s t :: markersFrom (processTurn s t) ts

/-- Whether some chunk of the turn trips the handler's final-answer test. -/
def turnHasFA (turn : List (Option ChunkMsg)) : Bool :=
  turn.any chunkSignalsFinalAnswer

/-! ## Tool execution (`execute_tool`, `agent_with_custom_history.py`
lines 161-170) -/

/-- One entry of an `AIMessage.tool_calls` list: `{"name": ..., "args": ...,
"id": ...}`.  Argument values are embedded as strings. -/
structure ToolCallSpec where
  id : String
  name : String
  args : List (String × String)
  deriving DecidableEq, Repr

/-- An `AIMessage` as built by `stream` inside `invoke`: content, the
`tool_calls` list, and the `tool_call_id` attribute (set to
`x.tool_calls[0]["id"]`). -/
structure AIToolMsg where
  content : String
  tool_calls : List ToolCallSpec
  tool_call_id : String
  deriving DecidableEq, Repr

/-- A `ToolMessage`: the stringified tool output and the originating
request's id. -/
structure ToolMessage where
  content : String
  tool_call_id : String
  deriving DecidableEq, Repr

/-- Python exceptions that `execute_tool` / `invoke` can raise. -/
inductive PyError where
  | keyError (k : String)
  | indexError
  | toolError (msg : String)
  deriving DecidableEq, Repr

/-- The tool registry `name2tool`: tool name to async callable.  A callable
takes the keyword arguments and either returns output text or raises
(`Except.error`). -/
def Name2Tool : Type := List (String × (List (String × String) → Except String String))

/-- `name2tool[tool_name]` resolution (raises `KeyError` when absent is
handled at the use site). -/
def resolveTool (n2t : Name2Tool) (name : String) :
    Option (List (String × String) → Except String String) :=
  (List.find? (fun p => p.1 == name) n2t).map Prod.snd

/-- Python `tool_args["source"] = selected_source`: overwrite or add the key. -/
def setArg (args : List (String × String)) (k v : String) : List (String × String) :=
  if args.any (fun p => p.1 == k) then
    args.map (fun p => if p.1 == k then (k, v) else p)
  else
    args ++ [(k, v)]

/-- `if tool_name == "retrieval_tool" and selected_source:` — note Python
truthiness: an empty-string source is falsy. -/
def overrideArgs (selected_source : Option String) (spec : ToolCallSpec) :
    List (String × String) :=
  match selected_source with
  | some src => if spec.name == "retrieval_tool" && src != "" then setArg spec.args "source" src else spec.args
  | none => spec.args

/-- `execute_tool` (lines 161-170).  `tool_call.tool_calls[0]` raises
`IndexError` on an empty list; an unmapped name raises `KeyError`; an
exception inside the resolved tool propagates (there is no `try`/`except`
in this function); a normal return is wrapped in a `ToolMessage` whose
`tool_call_id` is the request's id. -/
def execute_tool (n2t : Name2Tool) (selected_source : Option String)
    (tool_call : AIToolMsg) : Except PyError ToolMessage :=
  match tool_call.tool_calls.head? with
  | none => .error .indexError
  | some spec =>
    match resolveTool n2t spec.name with
    | none => .error (.keyError spec.name)
    | some f =>
      match f (overrideArgs selected_source spec) with
      | .error e => .error (.toolError e)
      | .ok out => .ok ⟨out, spec.id⟩

/-! ## Stream reconstruction (`stream` inside `CustomAgentExecutor.invoke`,
`agent_with_custom_history.py` lines 218-242) -/

/-- One entry of a streamed token's `additional_kwargs["tool_calls"]` list
as the reconstruction loop reads it: the (possibly empty) `id`, the
function name, and the argument fragment.  An absent id is embedded as
`""` (both `None` and `""` are falsy in the Python test `if
tool_calls[0]["id"]:`). -/
structure DeltaEntry where
  id : String
  name : String
  args : String
  deriving DecidableEq, Repr

/-- A streamed token: its `additional_kwargs.get("tool_calls")` list
(empty embeds both a missing and an empty list — both falsy). -/
structure StreamToken where
  tool_calls : List DeltaEntry
  deriving DecidableEq, Repr

/-- A reconstructed tool-call request accumulated in `outputs`: merging
chunks (`outputs[-1] += token`) keeps the first chunk's id and name and
concatenates the argument fragments. -/
structure TCReq where
  id : String
  name : String
  args : String
  deriving DecidableEq, Repr

/-- The body of the `async for token in response.astream(...)` loop:
tokens without tool calls are skipped; a token whose first tool-call entry
bears a truthy id appends a new output; otherwise `outputs[-1] += token`,
which raises `IndexError` when `outputs` is empty. -/
def streamFold (outputs : List TCReq) : List StreamToken → Except PyError (List TCReq)
  | [] => .ok outputs
  | t :: rest =>
    match t.tool_calls.head? with
    | none => streamFold outputs rest
    | some d =>
      if d.id != "" then
        streamFold (outputs ++ [⟨d.id, d.name, d.args⟩]) rest
      else
        match outputs.getLast? with
        | none => .error .indexError
        | some last =>
          streamFold (outputs.dropLast ++ [{ last with args := last.args ++ d.args }]) rest

def reconstruct (ts : List StreamToken) : Except PyError (List TCReq) :=
  streamFold [] ts

/-- Whether a token's first tool-call entry bears a non-empty id, i.e.
starts a new request. -/
def tokenStartsRequest (t : StreamToken) : Bool :=
  match t.tool_calls.head? with
  | some d => d.id != ""
  | none => false

def countIdBearing (ts : List StreamToken) : Nat :=
  (ts.filter tokenStartsRequest).length

/-- The argument fragment a token contributes (`""` for tokens without
tool calls). -/
def tokenFrag (t : StreamToken) : String :=
  match t.tool_calls.head? with
  | some d => d.args
  | none => ""

/-- Well-formedness of a turn's delta stream: every tool-call delta without
an id is preceded by some id-bearing delta (`started` records whether a
request has been started). -/
def wfStreamAux (started : Bool) : List StreamToken → Bool
  | [] => true
  | t :: rest =>
    match t.tool_calls.head? with
    | none => wfStreamAux started rest
    | some d =>
      if d.id != "" then wfStreamAux true rest
      else started && wfStreamAux started rest

def wfStream (ts : List StreamToken) : Bool := wfStreamAux false ts

def argsConcat (reqs : List TCReq) : String :=
  String.join (reqs.map TCReq.args)

def fragsConcat (ts : List StreamToken) : String :=
  String.join (ts.map tokenFrag)

/-! ## Agent loop (`CustomAgentExecutor.invoke`,
`agent_with_custom_history.py` lines 210-273)

The model turn (`stream(query=input)`, whose value is the list of
reconstructed `AIMessage`s for the turn) is embedded as an oracle
`model : List ScratchItem → List AIToolMsg` — a function of the
scratchpad-so-far; the fixed `input` and `chat_history` are absorbed into
the oracle.  The `memory.add_messages` side effect at the end of `invoke`
is the `add_messages` function verified separately above. -/

/-- An entry of `agent_scratchpad`: an `AIMessage` tool call or a
`ToolMessage` observation. -/
inductive ScratchItem where
  | call (m : AIToolMsg)
  | obs (m : ToolMessage)
  deriving DecidableEq, Repr

/-- `asyncio.gather(*[execute_tool(...) ...])`: results in submission
order; the first exception propagates. -/
def gatherExec (n2t : Name2Tool) (src : Option String) :
    List AIToolMsg → Except PyError (List ToolMessage)
  | [] => .ok []
  | tc :: rest =>
    match execute_tool n2t src tc with
    | .error e => .error e
    | .ok m => (gatherExec n2t src rest).map (fun ms => m :: ms)

/-- Insertion into a Python dict: an existing key's value is overwritten,
a new key is appended. -/
def dictInsert (m : List (String × ToolMessage)) (k : String) (v : ToolMessage) :
    List (String × ToolMessage) :=
  if m.any (fun p => p.1 == k) then
    m.map (fun p => if p.1 == k then (k, v) else p)
  else
    m ++ [(k, v)]

/-- `id2tool_obs = {tool_call.tool_call_id: tool_obs for tool_call, tool_obs
in zip(tool_calls, tool_obs)}`, generalised to any list of
(request, result) pairs. -/
def dictOfPairs (ps : List (AIToolMsg × ToolMessage)) : List (String × ToolMessage) :=
  ps.foldl (fun m p => dictInsert m p.1.tool_call_id p.2) []

/-- `id2tool_obs[key]` (`None`-free lookup; a missing key raises at the
use site). -/
def dictGet (m : List (String × ToolMessage)) (k : String) : Option ToolMessage :=
  (m.find? (fun p => p.1 == k)).map Prod.snd

/-- `for tool_call in tool_calls: agent_scratchpad.extend([tool_call,
id2tool_obs[tool_call.tool_call_id]])`. -/
def buildScratch (tool_calls : List AIToolMsg) (m : List (String × ToolMessage)) :
    Except PyError (List ScratchItem) :=
  match tool_calls with
  | [] => .ok []
  | tc :: rest =>
    match dictGet m tc.tool_call_id with
    | none => .error (.keyError tc.tool_call_id)
    | some ob =>
      (buildScratch rest m).map (fun items => .call tc :: .obs ob :: items)

/-- The `for tool_call in tool_calls: if tool_call.tool_calls[0]["name"] ==
"final_answer": ... break` scan: returns the first matching
`tool_calls[0]` entry (the `final_answer_call` dict), `none` if no turn
call matches, and raises `IndexError` on an empty `tool_calls` list. -/
def findFinalAnswer : List AIToolMsg → Except PyError (Option ToolCallSpec)
  | [] => .ok none
  | m :: rest =>
    match m.tool_calls.head? with
    | none => .error .indexError
    | some spec =>
      if spec.name == "final_answer" then .ok (some spec)
      else findFinalAnswer rest

/-- `args.find?` by key, i.e. `args["answer"]` with the `KeyError` handled
at the use site. -/
def lookupArg (args : List (String × String)) (k : String) : Option String :=
  (args.find? (fun p => p.1 == k)).map Prod.snd

/-- The `while count < self.max_iterations` loop (lines 244-264), with the
remaining iteration budget as fuel.  Returns the final `count`, the
captured `final_answer_call` (if any), and the scratchpad. -/
def invokeLoopAux (model : List ScratchItem → List AIToolMsg) (n2t : Name2Tool)
    (src : Option String) :
    Nat → Nat → List ScratchItem →
    Except PyError (Nat × Option ToolCallSpec × List ScratchItem)
  | 0, count, sp => .ok (count, none, sp)
  | fuel + 1, count, sp =>
    let tcs := model sp
    match gatherExec n2t src tcs with
    | .error e => .error e
    | .ok obs =>
      match buildScratch tcs (dictOfPairs (tcs.zip obs)) with
      | .error e => .error e
      | .ok items =>
        let sp' := sp ++ items
        match findFinalAnswer tcs with
        | .error e => .error e
        | .ok (some spec) => .ok (count + 1, some spec, sp')
        | .ok none => invokeLoopAux model n2t src fuel (count + 1) sp'

/-- The value `invoke` returns: either the raw `final_answer_call` dict or
the fallback payload `{"answer": "No answer found", "tools_used": []}`. -/
inductive InvokeAnswer where
  | call (spec : ToolCallSpec)
  | payload (answer : String) (tools_used : List String)
  deriving DecidableEq, Repr

/-- `CustomAgentExecutor.invoke` (lines 210-273): run the loop, then
`return (final_answer_call if final_answer else {"answer": "No answer
found", "tools_used": []}, agent_scratchpad)`.  `final_answer` is
`final_answer_call["args"]["answer"]` (a `KeyError` if the argument is
missing) and Python truthiness makes an empty answer string fall back as
well. -/
def invokeExec (model : List ScratchItem → List AIToolMsg) (n2t : Name2Tool)
    (src : Option String) (max_iterations : Nat) :
    Except PyError (InvokeAnswer × List ScratchItem) :=
  match invokeLoopAux model n2t src max_iterations 0 [] with
  | .error e => .error e
  | .ok (_, none, sp) => .ok (.payload "No answer found" [], sp)
  | .ok (_, some spec, sp) =>
    match lookupArg spec.args "answer" with
    | none => .error (.keyError "answer")
    | some a =>
      if a != "" then .ok (.call spec, sp)
      else .ok (.payload "No answer found" [], sp)

/-- The `count` reached by a completed loop. -/
def turnsOf (r : Except PyError (Nat × Option ToolCallSpec × List ScratchItem)) :
    Option Nat :=
  r.toOption.map (fun x => x.1)

/-- The answer component of a completed `invoke`. -/
def answerOf (r : Except PyError (InvokeAnswer × List ScratchItem)) :
    Option InvokeAnswer :=
  r.toOption.map (fun x => x.1)

/-! ## Concrete instances used by the witnesses -/

/-- A model oracle that always asks for `add(x=2, y=2)`. -/
def demoModel : List ScratchItem → List AIToolMsg :=
  fun _ => [⟨"", [⟨"call_1", "add", [("x", "2"), ("y", "2")]⟩], "call_1"⟩]

/-- A registry with a well-behaved `add` tool. -/
def demoRegistry : Name2Tool :=
  [("add", fun _ => .ok "4.0")]

/-- A registry whose only tool always raises. -/
def boomRegistry : Name2Tool :=
  [("boom", fun _ => .error "division by zero")]

/-- A tool-call request for the raising tool. -/
def boomCall : AIToolMsg := ⟨"", [⟨"call_9", "boom", []⟩], "call_9"⟩

/-- A second tool-call request for the raising tool, with an argument. -/
def boomCall2 : AIToolMsg := ⟨"x", [⟨"call_10", "boom", [("a", "1")]⟩], "call_10"⟩

/-- The id of a request's first `tool_calls` entry — the id `execute_tool`
stamps on its `ToolMessage` (`tool_call.tool_calls[0]["id"]`). -/
def headCallId (tc : AIToolMsg) : String :=
  match tc.tool_calls.head? with
  | some spec => spec.id
  | none => ""

/-!
# Theorems
-/

/-! ## Claim C10: argument order of `subtract` -/

/-- Claim C10: for all numbers `x` and `y`, the `subtract` tool called with
arguments `(x, y)` returns `y - x` — the first positional argument is the
subtrahend and the second the minuend, not the conventional `x - y`. -/
theorem subtract_swaps_arguments (x y : Rat) :
    subtract x y = y - x ∧ (subtract x y = x - y ↔ x = y) := by
  refine ⟨rfl, ?_⟩
  unfold subtract
  constructor
  · intro h; linarith
  · intro h; rw [h]

/-! ## Claim C9: retrieval threshold and sentinel -/

/-- Claim C9: the retrieval tool's returned text is built only from
retrieved chunks whose relevance score is at least the threshold `7/10`;
if no retrieved chunk meets the threshold, or nothing is retrieved at all,
it returns exactly the sentinel "No relevant documents found.". -/
theorem retrieval_tool_threshold (results : List RetrievedChunk) :
    retrieval_tool results =
      if results.filter (fun c => decide (THRESHOLD ≤ c.score)) = [] then
        "No relevant documents found."
      else
        String.intercalate "\n\n---NEXT-CHUNK---\n\n"
          ((results.filter (fun c => decide (THRESHOLD ≤ c.score))).map
            RetrievedChunk.page_content) := by
  have hfix : results.filter (fun c => !decide (c.score < THRESHOLD))
      = results.filter (fun c => decide (THRESHOLD ≤ c.score)) := by
    apply List.filter_congr
    intro c _
    by_cases h : c.score < THRESHOLD
    · simp [h, not_le.mpr h]
    · simp [h, not_lt.mp h]
  unfold retrieval_tool
  rw [hfix]
  rcases results with _ | ⟨c, cs⟩
  · simp
  · rw [List.isEmpty_cons]
    by_cases hf : (c :: cs).filter (fun c => decide (THRESHOLD ≤ c.score)) = []
    · rw [hf]
      simp
    · rw [if_neg hf]
      have hmap : (((c :: cs).filter (fun c => decide (THRESHOLD ≤ c.score))).map
          RetrievedChunk.page_content).isEmpty = false := by
        simp [List.isEmpty_iff, hf]
      simp [hmap]

/-! ## Claim C8: the expression evaluator's allow-list -/

/-- Claim C8: if the compiled expression references any identifier outside
the allowed set (math-module names plus `abs` and `round`),
`evaluate_expression` returns an error string; the result does not depend
on the expression's evaluation (it is never executed), so no exception
escapes the tool boundary. -/
theorem evaluate_expression_rejects (mathNames names : List String)
    (r r' : Except String Rat) (bad : String)
    (hmem : bad ∈ names) (hout : (allowedNames mathNames).contains bad = false) :
    (safe_eval (allowedNames mathNames) (Except.ok ⟨names, r⟩)).isErr = true ∧
    safe_eval (allowedNames mathNames) (Except.ok ⟨names, r⟩)
      = safe_eval (allowedNames mathNames) (Except.ok ⟨names, r'⟩) := by
  have hsome : (names.find? (fun n => !(allowedNames mathNames).contains n)).isSome := by
    rw [List.find?_isSome]
    refine ⟨bad, hmem, by simpa using hout⟩
  obtain ⟨n, hn⟩ := Option.isSome_iff_exists.mp hsome
  constructor
  · simp only [safe_eval, hn, EvalResult.isErr]
  · simp only [safe_eval, hn]

/-- Witness for C8: the expression `__import__("os")` compiles to code
whose `co_names` contain `__import__`, which is outside the allow-list;
the tool returns an error string whatever evaluating the expression would
have done. -/
theorem evaluate_expression_rejects_witness :
    (safe_eval (allowedNames ["sqrt", "pi"])
        (Except.ok ⟨["__import__"], Except.ok 0⟩)).isErr = true ∧
    safe_eval (allowedNames ["sqrt", "pi"]) (Except.ok ⟨["__import__"], Except.ok 0⟩)
      = safe_eval (allowedNames ["sqrt", "pi"])
          (Except.ok ⟨["__import__"], Except.error "os.system"⟩) :=
  evaluate_expression_rejects ["sqrt", "pi"] ["__import__"]
    (Except.ok 0) (Except.error "os.system") "__import__" (by simp) (by decide)

/-! ## Claim C2: the `k = 0` buffer bound -/

/-- Claim C2 (code bug): the claim says that with `k = 0` every added
message is evicted immediately and the stored non-System count never
exceeds `k`.  In the code, `self.messages[-self.k:]` with `k = 0` is the
Python slice `[-0:]`, i.e. the whole list, so nothing is evicted: after
adding one message at `k = 0` the history holds that message (plus a fresh
summary built from it), and the non-System count is `1 > 0`. -/
theorem memory_k_zero_retains_messages :
    add_messages (fun _ evicted => evicted) 0 [] [.human "hi"]
      = [.system "hi", .human "hi"] ∧
    nonSystemCount (add_messages (fun _ evicted => evicted) 0 [] [.human "hi"]) = 1 := by
  constructor <;> rfl

theorem nonSystemCount_if_bound (k : Nat) (hk : 1 ≤ k) (s : String)
    (buf : List BaseMessage) :
    nonSystemCount (if buf.length > k then BaseMessage.system s :: pySliceLast k buf
      else buf) ≤ k := by
  split
  case isTrue h =>
    have h1 : nonSystemCount (BaseMessage.system s :: pySliceLast k buf)
        = nonSystemCount (pySliceLast k buf) := by
      simp [nonSystemCount, List.filter_cons, BaseMessage.isSystem]
    rw [h1]
    have h2 : (pySliceLast k buf).length = k := by
      unfold pySliceLast
      rw [if_neg (by omega)]
      rw [List.length_drop]
      omega
    calc nonSystemCount (pySliceLast k buf) ≤ (pySliceLast k buf).length :=
        List.length_filter_le _ _
      _ = k := h2
  case isFalse h =>
    calc nonSystemCount buf ≤ buf.length := List.length_filter_le _ _
      _ ≤ k := by omega

/-- For every positive `k` the claimed bound does hold: after any
`add_messages` call the stored non-System count is at most `k`.  The
violation is specific to `k = 0`, where the slice `[-0:]` keeps the whole
list. -/
theorem add_messages_nonSystemCount_le (summarize : String → String → String)
    (k : Nat) (hk : 1 ≤ k) (stored msgs : List BaseMessage) :
    nonSystemCount (add_messages summarize k stored msgs) ≤ k := by
  rcases stored with _ | ⟨head, rest⟩
  · simp only [add_messages]
    exact nonSystemCount_if_bound k hk _ _
  · cases head with
    | system c =>
      simp only [add_messages]
      exact nonSystemCount_if_bound k hk _ _
    | human c =>
      simp only [add_messages]
      exact nonSystemCount_if_bound k hk _ _
    | ai c =>
      simp only [add_messages]
      exact nonSystemCount_if_bound k hk _ _
    | tool c =>
      simp only [add_messages]
      exact nonSystemCount_if_bound k hk _ _

/-! ## Claim C3: summary preservation without eviction -/

/-- Claim C3 (code bug): the claim says that when nothing is evicted a
pre-existing leading System summary stays in the stored sequence
unchanged.  In the code the summary is popped up front and the
no-eviction path returns without reattaching it, so the summary is lost:
adding one message to `[System "old summary", Human "a"]` at `k = 5`
yields `[Human "a", Human "b"]` — the old tail followed by the new
messages, with the summary gone. -/
theorem memory_summary_lost_without_eviction :
    add_messages (fun _ evicted => evicted) 5
        [.system "old summary", .human "a"] [.human "b"]
      = [.human "a", .human "b"] := by
  rfl

/-! ## Claim C5: tool execution failures -/

/-- Counterexample to claim C5: a registered tool that raises.  The claim
says `execute_tool` catches the exception and returns a result whose
content is `ToolExecutionError: <message>`; the code has no `try`/`except`
and the exception propagates to the caller. -/
theorem execute_tool_propagates_cex :
    execute_tool boomRegistry none boomCall
      = Except.error (PyError.toolError "division by zero") := by
  rfl

/-- Claim C5 as amended: for every tool-call request whose name resolves
to a registered tool, if the tool's execution raises then the exception
propagates out of `execute_tool` (just as an unresolved name does); no
textual `ToolExecutionError` result is produced. -/
theorem execute_tool_propagates_tool_failure (n2t : Name2Tool)
    (src : Option String) (tc : AIToolMsg) (spec : ToolCallSpec)
    (f : List (String × String) → Except String String) (e : String)
    (h1 : tc.tool_calls.head? = some spec)
    (h2 : resolveTool n2t spec.name = some f)
    (h3 : f (overrideArgs src spec) = Except.error e) :
    execute_tool n2t src tc = Except.error (PyError.toolError e) := by
  simp only [execute_tool, h1, h2, h3]

/-- Witness for the amended C5, at a second concrete raising call. -/
theorem execute_tool_propagates_tool_failure_witness :
    execute_tool boomRegistry none boomCall2
      = Except.error (PyError.toolError "division by zero") :=
  execute_tool_propagates_tool_failure boomRegistry none boomCall2
    ⟨"call_10", "boom", [("a", "1")]⟩
    (fun _ => Except.error "division by zero") "division by zero" rfl rfl rfl

/-! ## Claim C4: terminal markers per model turn -/

theorem foldl_token_seen (turn : List (Option ChunkMsg)) (s : HandlerState) :
    (turn.foldl on_llm_new_token s).final_answer_seen
      = (s.final_answer_seen || turnHasFA turn) := by
  induction turn generalizing s with
  | nil => simp [turnHasFA]
  | cons c cs ih =>
    simp [List.foldl_cons, ih, on_llm_new_token, turnHasFA, List.any_cons, Bool.or_assoc]

theorem foldl_token_queue (turn : List (Option ChunkMsg)) (s : HandlerState) :
    (turn.foldl on_llm_new_token s).queue
      = s.queue ++ turn.map (fun c => QItem.chunk c) := by
  induction turn generalizing s with
  | nil => simp
  | cons c cs ih =>
    simp [List.foldl_cons, ih, on_llm_new_token, List.append_assoc]

theorem processTurn_seen (s : HandlerState) (turn : List (Option ChunkMsg)) :
    (processTurn s turn).final_answer_seen
      = (s.final_answer_seen || turnHasFA turn) := by
  simp [processTurn, on_llm_end, foldl_token_seen]

theorem processTurn_queue (s : HandlerState) (turn : List (Option ChunkMsg)) :
    (processTurn s turn).queue
      = s.queue ++ turn.map (fun c => QItem.chunk c) ++ [turnMarker s turn] := by
  simp [processTurn, on_llm_end, turnMarker, foldl_token_queue]

theorem processTurn_terminal_filter (s : HandlerState) (turn : List (Option ChunkMsg)) :
    (processTurn s turn).queue.filter QItem.isTerminal
      = s.queue.filter QItem.isTerminal ++ [turnMarker s turn] := by
  rw [processTurn_queue, List.filter_append, List.filter_append]
  have hchunks : (turn.map (fun c => QItem.chunk c)).filter QItem.isTerminal = [] := by
    rw [List.filter_map]
    have hcomp : (QItem.isTerminal ∘ fun c => QItem.chunk c) = fun _ => false := by
      funext c; rfl
    rw [hcomp]
    simp
  have hmarker : [turnMarker s turn].filter QItem.isTerminal = [turnMarker s turn] := by
    unfold turnMarker
    by_cases h : (turn.foldl on_llm_new_token s).final_answer_seen <;>
      simp [h, QItem.isTerminal]
  rw [hchunks, hmarker, List.append_nil]

theorem markersFrom_eq (turns : List (List (Option ChunkMsg))) (s : HandlerState) :
    markersFrom s turns
      = (List.range turns.length).map
          (fun i => if s.final_answer_seen || (turns.take (i + 1)).any turnHasFA
                    then QItem.done else QItem.stepEnd) := by
  induction turns generalizing s with
  | nil => simp [markersFrom]
  | cons t ts ih =>
    rw [markersFrom, ih (processTurn s t), List.length_cons, List.range_succ_eq_map,
      List.map_cons, List.map_map]
    congr 1
    · simp [turnMarker, foldl_token_seen, List.take_succ_cons, List.any_cons]
    · apply List.map_congr_left
      intro i _
      simp [Function.comp, processTurn_seen, List.take_succ_cons, List.any_cons,
        Bool.or_assoc]

theorem runTurns_terminal_filter (turns : List (List (Option ChunkMsg)))
    (s : HandlerState) :
    (runTurns s turns).queue.filter QItem.isTerminal
      = s.queue.filter QItem.isTerminal ++ markersFrom s turns := by
  induction turns generalizing s with
  | nil => simp [runTurns, markersFrom]
  | cons t ts ih =>
    rw [runTurns, List.foldl_cons,
      show List.foldl processTurn (processTurn s t) ts = runTurns (processTurn s t) ts
        from rfl,
      ih (processTurn s t), markersFrom, processTurn_terminal_filter,
      List.append_assoc, List.singleton_append]

/-- Counterexample to claim C4: the claim says a turn's terminal marker is
`DONE` only when a final-answer delta was enqueued during that turn.  The
handler's `final_answer_seen` flag is never reset, so after a first turn
containing a final-answer delta, a second turn with no final-answer delta
still closes with `DONE`, not `STEP_END`. -/
theorem handler_second_turn_marker_cex :
    markersFrom handlerInit
        [[some ⟨[⟨"final_answer"⟩]⟩], [some ⟨[⟨"add"⟩]⟩]]
      = [QItem.done, QItem.done]
    ∧ turnHasFA [some ⟨[⟨"add"⟩]⟩] = false := by
  constructor <;> rfl

/-- Claim C4 as amended: every model turn enqueues exactly one terminal
marker when its stream closes — the terminal items on the relay queue are
exactly the per-turn markers, in turn order — and the marker of turn `i`
is `DONE` iff some chunk of turn `i` or of an earlier turn on the same
handler had `final_answer` as the name of its first tool-call delta
(`STEP_END` otherwise): the flag is cumulative, not per-turn. -/
theorem handler_one_marker_per_turn (turns : List (List (Option ChunkMsg))) :
    markersFrom handlerInit turns
      = (List.range turns.length).map
          (fun i => if (turns.take (i + 1)).any turnHasFA then QItem.done
                    else QItem.stepEnd)
    ∧ (runTurns handlerInit turns).queue.filter QItem.isTerminal
        = markersFrom handlerInit turns := by
  constructor
  · rw [markersFrom_eq]
    simp [handlerInit]
  · rw [runTurns_terminal_filter]
    simp [handlerInit]

/-! ## Claim C7: delta-stream reconstruction -/

theorem strFoldl_eq (l : List String) (s : String) :
    l.foldl (· ++ ·) s = s ++ String.join l := by
  induction l generalizing s with
  | nil => simp [String.join]
  | cons a as ih =>
    show as.foldl (· ++ ·) (s ++ a) = s ++ String.join (a :: as)
    rw [ih (s ++ a)]
    have hja : String.join (a :: as) = a ++ String.join as := by
      show as.foldl (· ++ ·) ("" ++ a) = a ++ String.join as
      rw [ih ("" ++ a)]
      rfl
    rw [hja, String.append_assoc]

theorem join_append (l1 l2 : List String) :
    String.join (l1 ++ l2) = String.join l1 ++ String.join l2 := by
  show (l1 ++ l2).foldl (· ++ ·) "" = String.join l1 ++ String.join l2
  rw [List.foldl_append]
  exact strFoldl_eq l2 (l1.foldl (· ++ ·) "")

theorem join_cons (a : String) (l : List String) :
    String.join (a :: l) = a ++ String.join l := by
  show l.foldl (· ++ ·) ("" ++ a) = a ++ String.join l
  rw [strFoldl_eq]
  rfl

theorem argsConcat_append (l1 l2 : List TCReq) :
    argsConcat (l1 ++ l2) = argsConcat l1 ++ argsConcat l2 := by
  simp [argsConcat, join_append]

theorem argsConcat_singleton (r : TCReq) : argsConcat [r] = r.args := by
  simp [argsConcat, join_cons, String.join, String.append_empty]

theorem fragsConcat_cons (t : StreamToken) (ts : List StreamToken) :
    fragsConcat (t :: ts) = tokenFrag t ++ fragsConcat ts := by
  rw [fragsConcat, List.map_cons, join_cons]
  rfl

theorem streamFold_ok (ts : List StreamToken) :
    ∀ outputs : List TCReq, wfStreamAux (!outputs.isEmpty) ts = true →
    ∃ reqs, streamFold outputs ts = .ok reqs
      ∧ reqs.length = outputs.length + countIdBearing ts
      ∧ argsConcat reqs = argsConcat outputs ++ fragsConcat ts := by
  induction ts with
  | nil =>
    intro outputs _
    refine ⟨outputs, rfl, by simp [countIdBearing], ?_⟩
    simp [fragsConcat, String.join, String.append_empty]
  | cons t rest ih =>
    intro outputs h
    cases hh : t.tool_calls.head? with
    | none =>
      simp only [wfStreamAux, hh] at h
      obtain ⟨reqs, hok, hlen, hargs⟩ := ih outputs h
      refine ⟨reqs, ?_, ?_, ?_⟩
      · simp only [streamFold, hh]; exact hok
      · rw [hlen]
        have hc : tokenStartsRequest t = false := by simp [tokenStartsRequest, hh]
        simp [countIdBearing, List.filter_cons, hc]
      · rw [hargs, fragsConcat_cons]
        have hfr : tokenFrag t = "" := by simp [tokenFrag, hh]
        rw [hfr]
        rfl
    | some d =>
      by_cases hid : (d.id != "") = true
      · -- a new request is started
        have hwf : wfStreamAux true rest = true := by
          simp only [wfStreamAux, hh] at h
          rw [if_pos hid] at h
          exact h
        have hne : (outputs ++ [(⟨d.id, d.name, d.args⟩ : TCReq)]).isEmpty = false := by
          simp
        obtain ⟨reqs, hok, hlen, hargs⟩ :=
          ih (outputs ++ [⟨d.id, d.name, d.args⟩]) (by rw [hne]; exact hwf)
        refine ⟨reqs, ?_, ?_, ?_⟩
        · simp only [streamFold, hh]
          rw [if_pos hid]
          exact hok
        · rw [hlen]
          have hc : tokenStartsRequest t = true := by simp [tokenStartsRequest, hh, hid]
          simp [countIdBearing, List.filter_cons, hc]
          omega
        · rw [hargs, argsConcat_append, argsConcat_singleton, fragsConcat_cons]
          have hfr : tokenFrag t = d.args := by simp [tokenFrag, hh]
          rw [hfr, String.append_assoc]
      · -- an argument fragment is appended to the last request
        have hstarted : (!outputs.isEmpty) = true ∧
            wfStreamAux (!outputs.isEmpty) rest = true := by
          simp only [wfStreamAux, hh] at h
          rw [if_neg hid] at h
          exact Bool.and_eq_true _ _ |>.mp h
        have houtne : outputs ≠ [] := by
          intro he
          rw [he] at hstarted
          simp at hstarted
        cases hlast : outputs.getLast? with
        | none =>
          exact absurd (List.getLast?_eq_none_iff.mp hlast) houtne
        | some last =>
          have hsplit : outputs.dropLast ++ [last] = outputs :=
            List.dropLast_append_getLast? last hlast
          have hne2 : (outputs.dropLast
              ++ [{ last with args := last.args ++ d.args }]).isEmpty = false := by
            simp
          obtain ⟨reqs, hok, hlen, hargs⟩ :=
            ih (outputs.dropLast ++ [{ last with args := last.args ++ d.args }])
              (by
                rw [hne2]
                show wfStreamAux true rest = true
                have h2 := hstarted.2
                rw [hstarted.1] at h2
                exact h2)
          refine ⟨reqs, ?_, ?_, ?_⟩
          · simp only [streamFold, hh]
            rw [if_neg hid, hlast]
            exact hok
          · rw [hlen]
            have hc : tokenStartsRequest t = false := by
              simp only [tokenStartsRequest, hh]
              simpa using hid
            have hlendrop : (outputs.dropLast
                ++ [{ last with args := last.args ++ d.args }]).length
                = outputs.length := by
              have hl := congrArg List.length hsplit
              simpa using hl
            simp [countIdBearing, List.filter_cons, hc, hlendrop]
          · rw [hargs, argsConcat_append, argsConcat_singleton, fragsConcat_cons]
            have hfr : tokenFrag t = d.args := by simp [tokenFrag, hh]
            have hout : argsConcat outputs = argsConcat outputs.dropLast ++ last.args := by
              conv_lhs => rw [← hsplit]
              rw [argsConcat_append, argsConcat_singleton]
            rw [hfr, hout]
            simp only [String.append_assoc]

/-- Claim C7: for every well-formed stream of tool-call deltas of one model
turn (every id-less delta is preceded by some id-bearing delta), the
reconstruction succeeds, yields exactly one request per delta bearing a
non-empty id — so the number of reconstructed requests equals the number of
id-bearing deltas — and every argument fragment is appended to the most
recently started request, so the concatenated request arguments are exactly
the concatenated delta fragments in stream order. -/
theorem stream_reconstruction (ts : List StreamToken) (h : wfStream ts = true) :
    (reconstruct ts).toOption.map List.length = some (countIdBearing ts)
    ∧ (reconstruct ts).toOption.map argsConcat = some (fragsConcat ts) := by
  obtain ⟨reqs, hok, hlen, hargs⟩ := streamFold_ok ts [] (by simpa [wfStream] using h)
  rw [reconstruct, hok]
  simp only [List.length_nil, Nat.zero_add] at hlen
  have hargs2 : argsConcat reqs = fragsConcat ts := by
    rw [hargs]
    show argsConcat [] ++ fragsConcat ts = fragsConcat ts
    rfl
  constructor
  · show some reqs.length = some (countIdBearing ts)
    rw [hlen]
  · show some (argsConcat reqs) = some (fragsConcat ts)
    rw [hargs2]

/-- Witness for C7: a three-token stream — an id-bearing delta, an id-less
fragment, and a token without tool calls — reconstructs to one request
carrying both fragments. -/
theorem stream_reconstruction_witness :
    (reconstruct [⟨[⟨"call_1", "add", "ab"⟩]⟩, ⟨[⟨"", "", "cd"⟩]⟩, ⟨[]⟩]).toOption.map
        List.length
      = some (countIdBearing [⟨[⟨"call_1", "add", "ab"⟩]⟩, ⟨[⟨"", "", "cd"⟩]⟩, ⟨[]⟩])
    ∧ (reconstruct [⟨[⟨"call_1", "add", "ab"⟩]⟩, ⟨[⟨"", "", "cd"⟩]⟩, ⟨[]⟩]).toOption.map
        argsConcat
      = some (fragsConcat [⟨[⟨"call_1", "add", "ab"⟩]⟩, ⟨[⟨"", "", "cd"⟩]⟩, ⟨[]⟩]) :=
  stream_reconstruction [⟨[⟨"call_1", "add", "ab"⟩]⟩, ⟨[⟨"", "", "cd"⟩]⟩, ⟨[]⟩] (by rfl)

/-! ## Dictionary lemmas for the id-to-result mapping -/

theorem dictGet_isSome_any (m : List (String × ToolMessage)) (k : String) :
    (dictGet m k).isSome = m.any (fun p => p.1 == k) := by
  induction m with
  | nil => rfl
  | cons p rest ih =>
    cases h : (p.1 == k) with
    | true =>
      rw [dictGet, List.find?_cons_of_pos rest h]
      simp [List.any_cons, h]
    | false =>
      rw [dictGet, List.find?_cons_of_neg rest (by simp [h])]
      rw [List.any_cons, h]
      simpa [dictGet] using ih

theorem dictGet_insert_isSome (m : List (String × ToolMessage)) (k0 : String)
    (v : ToolMessage) (k : String) :
    (dictGet (dictInsert m k0 v) k).isSome
      = ((dictGet m k).isSome || (k == k0)) := by
  rw [dictGet_isSome_any, dictGet_isSome_any]
  unfold dictInsert
  by_cases h : m.any (fun p => p.1 == k0) = true
  · rw [if_pos h, List.any_map]
    have hq : ((fun p : String × ToolMessage => p.1 == k)
        ∘ fun p : String × ToolMessage => if p.1 == k0 then (k0, v) else p)
        = fun p : String × ToolMessage => p.1 == k := by
      funext p
      by_cases hp : (p.1 == k0) = true
      · have hpk : p.1 = k0 := by simpa using hp
        simp [Function.comp, hp, hpk]
      · simp [Function.comp, hp]
    rw [hq]
    by_cases hk : k = k0
    · subst hk
      simp [h]
    · simp [hk]
  · rw [if_neg h, List.any_append]
    by_cases hk : k = k0
    · subst hk
      simp
    · have h1 : (k0 == k) = false := by simp [Ne.symm hk]
      have h2 : (k == k0) = false := by simp [hk]
      simp [h1, h2]

theorem dictOfPairs_key (ps : List (AIToolMsg × ToolMessage)) (k : String) :
    (dictGet (dictOfPairs ps) k).isSome
      = ps.any (fun p => p.1.tool_call_id == k) := by
  suffices haux : ∀ m, (dictGet
      (ps.foldl (fun m p => dictInsert m p.1.tool_call_id p.2) m) k).isSome
      = ((dictGet m k).isSome || ps.any (fun p => p.1.tool_call_id == k)) by
    have hbase := haux []
    simpa [dictOfPairs, dictGet] using hbase
  induction ps with
  | nil =>
    intro m
    simp
  | cons p rest ih =>
    intro m
    rw [List.foldl_cons, ih (dictInsert m p.1.tool_call_id p.2),
      dictGet_insert_isSome, List.any_cons]
    by_cases hk : k = p.1.tool_call_id
    · subst hk
      simp
    · have h1 : (k == p.1.tool_call_id) = false := by simp [hk]
      have h2 : (p.1.tool_call_id == k) = false := by simp [Ne.symm hk]
      simp [h1, h2]

theorem dictInsert_fresh (m : List (String × ToolMessage)) (k : String)
    (v : ToolMessage) (h : m.any (fun p => p.1 == k) = false) :
    dictInsert m k v = m ++ [(k, v)] := by
  unfold dictInsert
  rw [if_neg (by simp [h])]

theorem dictOfPairs_foldl_nodup :
    ∀ (ps : List (AIToolMsg × ToolMessage)) (m : List (String × ToolMessage)),
    (ps.map (fun p => p.1.tool_call_id)).Nodup →
    (∀ p ∈ ps, (dictGet m p.1.tool_call_id).isSome = false) →
    ps.foldl (fun m p => dictInsert m p.1.tool_call_id p.2) m
      = m ++ ps.map (fun p => (p.1.tool_call_id, p.2)) := by
  intro ps
  induction ps with
  | nil =>
    intro m _ _
    simp
  | cons p rest ih =>
    intro m hnd hm
    rw [List.foldl_cons]
    have hfresh : m.any (fun q => q.1 == p.1.tool_call_id) = false := by
      have hx := hm p (List.mem_cons_self _ _)
      rw [dictGet_isSome_any] at hx
      exact hx
    rw [dictInsert_fresh m _ _ hfresh]
    have hnd2 : (rest.map (fun p => p.1.tool_call_id)).Nodup :=
      (List.nodup_cons.mp (by simpa using hnd)).2
    have hnotin : p.1.tool_call_id ∉ rest.map (fun p => p.1.tool_call_id) :=
      (List.nodup_cons.mp (by simpa using hnd)).1
    have hm2 : ∀ q ∈ rest,
        (dictGet (m ++ [(p.1.tool_call_id, p.2)]) q.1.tool_call_id).isSome = false := by
      intro q hq
      rw [dictGet_isSome_any, List.any_append]
      have h1 : m.any (fun r => r.1 == q.1.tool_call_id) = false := by
        have hx := hm q (List.mem_cons_of_mem _ hq)
        rw [dictGet_isSome_any] at hx
        exact hx
      have hne : p.1.tool_call_id ≠ q.1.tool_call_id := by
        intro he
        exact hnotin (he ▸ List.mem_map_of_mem (fun p => p.1.tool_call_id) hq)
      have h2 : ([((p.1.tool_call_id : String), p.2)].any
          (fun r => r.1 == q.1.tool_call_id)) = false := by
        simp [hne]
      rw [h1, h2]
      rfl
    rw [ih (m ++ [(p.1.tool_call_id, p.2)]) hnd2 hm2]
    simp

theorem dictOfPairs_nodup (ps : List (AIToolMsg × ToolMessage))
    (h : (ps.map (fun p => p.1.tool_call_id)).Nodup) :
    dictOfPairs ps = ps.map (fun p => (p.1.tool_call_id, p.2)) := by
  have hx := dictOfPairs_foldl_nodup ps [] h (by intro p _; rfl)
  simpa [dictOfPairs] using hx

theorem dictGet_assoc_of_mem (ps : List (AIToolMsg × ToolMessage))
    (hnd : (ps.map (fun p => p.1.tool_call_id)).Nodup)
    (q : AIToolMsg × ToolMessage) (hq : q ∈ ps) :
    dictGet (ps.map (fun p => (p.1.tool_call_id, p.2))) q.1.tool_call_id = some q.2 := by
  induction ps with
  | nil => cases hq
  | cons p rest ih =>
    rcases List.mem_cons.mp hq with h | h
    · subst h
      simp [dictGet, List.find?_cons]
    · have hnd2 : (rest.map (fun p => p.1.tool_call_id)).Nodup :=
        (List.nodup_cons.mp (by simpa using hnd)).2
      have hnotin : p.1.tool_call_id ∉ rest.map (fun p => p.1.tool_call_id) :=
        (List.nodup_cons.mp (by simpa using hnd)).1
      have hne : p.1.tool_call_id ≠ q.1.tool_call_id := by
        intro he
        exact hnotin (he ▸ List.mem_map_of_mem (fun p => p.1.tool_call_id) h)
      rw [List.map_cons, dictGet, List.find?_cons_of_neg _ (by simp [hne])]
      have := ih hnd2 h
      rw [dictGet] at this
      exact this

/-! ## Claim C6: concurrent dispatch and recombination by id -/

theorem execute_tool_ok_head (n2t : Name2Tool) (src : Option String)
    (tc : AIToolMsg) (h : (execute_tool n2t src tc).isOk = true) :
    ∃ spec, tc.tool_calls.head? = some spec := by
  cases hh : tc.tool_calls.head? with
  | some spec => exact ⟨spec, rfl⟩
  | none =>
    simp only [execute_tool, hh] at h
    simp [Except.isOk, Except.toBool] at h

theorem mem_zip_left {α β : Type} :
    ∀ (l1 : List α) (l2 : List β) (a : α),
    l1.length = l2.length → a ∈ l1 → ∃ b, (a, b) ∈ l1.zip l2 := by
  intro l1
  induction l1 with
  | nil =>
    intro l2 a _ ha
    cases ha
  | cons x xs ih =>
    intro l2 a hlen ha
    cases l2 with
    | nil => simp at hlen
    | cons y ys =>
      rcases List.mem_cons.mp ha with h | h
      · exact ⟨y, by simp [List.zip_cons_cons, h]⟩
      · obtain ⟨b, hb⟩ := ih ys a (by simpa using hlen) h
        exact ⟨b, by simp [List.zip_cons_cons]; right; exact hb⟩

theorem gatherExec_ok (n2t : Name2Tool) (src : Option String) :
    ∀ (l : List AIToolMsg),
    (∀ tc ∈ l, (execute_tool n2t src tc).isOk = true) →
    ∃ obs, gatherExec n2t src l = .ok obs ∧ obs.length = l.length := by
  intro l
  induction l with
  | nil =>
    intro _
    exact ⟨[], rfl, rfl⟩
  | cons tc rest ih =>
    intro h
    have htc := h tc (List.mem_cons_self _ _)
    cases he : execute_tool n2t src tc with
    | error e =>
      rw [he] at htc
      simp [Except.isOk, Except.toBool] at htc
    | ok m =>
      obtain ⟨obs, hobs, hlen⟩ := ih (fun x hx => h x (List.mem_cons_of_mem _ hx))
      refine ⟨m :: obs, ?_, by simp [hlen]⟩
      simp only [gatherExec, he, hobs, Except.map]

theorem buildScratch_isOk (tcs : List AIToolMsg) (d : List (String × ToolMessage))
    (h : ∀ tc ∈ tcs, (dictGet d tc.tool_call_id).isSome = true) :
    ∃ items, buildScratch tcs d = .ok items := by
  induction tcs with
  | nil => exact ⟨[], rfl⟩
  | cons tc rest ih =>
    have htc := h tc (List.mem_cons_self _ _)
    obtain ⟨ob, hob⟩ := Option.isSome_iff_exists.mp htc
    obtain ⟨items, hitems⟩ := ih (fun x hx => h x (List.mem_cons_of_mem _ hx))
    refine ⟨.call tc :: .obs ob :: items, ?_⟩
    simp only [buildScratch, hob, hitems, Except.map]

theorem buildScratch_exact :
    ∀ (tcs : List AIToolMsg) (obs : List ToolMessage) (d : List (String × ToolMessage)),
    obs.length = tcs.length →
    (∀ q ∈ tcs.zip obs, dictGet d q.1.tool_call_id = some q.2) →
    buildScratch tcs d
      = Except.ok ((tcs.zip obs).flatMap
          (fun p => [ScratchItem.call p.1, ScratchItem.obs p.2])) := by
  intro tcs
  induction tcs with
  | nil =>
    intro obs d _ _
    simp [buildScratch]
  | cons tc rest ih =>
    intro obs d hlen hget
    cases obs with
    | nil => simp at hlen
    | cons ob orest =>
      have h1 : dictGet d tc.tool_call_id = some ob :=
        hget (tc, ob) (by simp [List.zip_cons_cons])
      have h2 := ih orest d (by simpa using hlen)
        (fun q hq => hget q (by simp [List.zip_cons_cons]; right; exact hq))
      simp only [buildScratch, h1, h2, Except.map, List.zip_cons_cons,
        List.flatMap_cons]
      rfl

/-- Claim C6: for every list of tool-call requests with pairwise-distinct
ids dispatched concurrently in one model turn, each returned result's
`toolCallId` equals the id of its originating request, and — whatever
permutation of the (request, result) pairs the id-to-result dictionary is
built from (completion order) — the scratchpad receives the (request,
result) pairs in the original request order. -/
theorem tool_results_match_requests (n2t : Name2Tool) (src : Option String)
    (tcs : List AIToolMsg) (obs : List ToolMessage)
    (arrived : List (AIToolMsg × ToolMessage))
    (hlen : obs.length = tcs.length)
    (hperm : arrived.Perm (tcs.zip obs))
    (hids : (tcs.map (fun tc => tc.tool_call_id)).Nodup)
    (hexec : ∀ p ∈ tcs.zip obs, execute_tool n2t src p.1 = Except.ok p.2) :
    buildScratch tcs (dictOfPairs arrived)
      = Except.ok ((tcs.zip obs).flatMap
          (fun p => [ScratchItem.call p.1, ScratchItem.obs p.2]))
    ∧ (tcs.zip obs).all (fun p => p.2.tool_call_id == headCallId p.1) = true := by
  have hzipkeys : (tcs.zip obs).map (fun p => p.1.tool_call_id)
      = tcs.map (fun tc => tc.tool_call_id) := by
    have hfst : (tcs.zip obs).map Prod.fst = tcs :=
      List.map_fst_zip tcs obs (by omega)
    calc (tcs.zip obs).map (fun p => p.1.tool_call_id)
        = ((tcs.zip obs).map Prod.fst).map (fun tc => tc.tool_call_id) := by
          rw [List.map_map]; rfl
      _ = tcs.map (fun tc => tc.tool_call_id) := by rw [hfst]
  have hznd : ((tcs.zip obs).map (fun p => p.1.tool_call_id)).Nodup := by
    rw [hzipkeys]; exact hids
  have harrnd : (arrived.map (fun p => p.1.tool_call_id)).Nodup :=
    ((hperm.map (fun p => p.1.tool_call_id)).nodup_iff).mpr hznd
  have hdict : dictOfPairs arrived = arrived.map (fun p => (p.1.tool_call_id, p.2)) :=
    dictOfPairs_nodup arrived harrnd
  have hget : ∀ q ∈ tcs.zip obs, dictGet (dictOfPairs arrived) q.1.tool_call_id
      = some q.2 := by
    intro q hq
    rw [hdict]
    exact dictGet_assoc_of_mem arrived harrnd q (hperm.mem_iff.mpr hq)
  constructor
  · exact buildScratch_exact tcs obs (dictOfPairs arrived) hlen hget
  · rw [List.all_eq_true]
    intro p hp
    have he := hexec p hp
    cases hh : p.1.tool_calls.head? with
    | none =>
      simp only [execute_tool, hh] at he
      simp at he
    | some spec =>
      simp only [execute_tool, hh] at he
      cases hr : resolveTool n2t spec.name with
      | none => rw [hr] at he; simp at he
      | some f =>
        rw [hr] at he
        cases hf : f (overrideArgs src spec) with
        | error e => simp [hf] at he
        | ok out =>
          simp only [hf] at he
          have hmsg : (⟨out, spec.id⟩ : ToolMessage) = p.2 := by
            exact (Except.ok.injEq _ _).mp he
          have hid : p.2.tool_call_id = spec.id := by
            rw [← hmsg]
          simp [hid, headCallId, hh]

/-- Witness for C6: two distinct-id requests whose results arrive in
reversed (completion) order still recombine into request order, with ids
matching. -/
theorem tool_results_match_requests_witness :
    buildScratch [⟨"", [⟨"id_a", "add", []⟩], "id_a"⟩, ⟨"", [⟨"id_b", "add", []⟩], "id_b"⟩]
        (dictOfPairs [(⟨"", [⟨"id_b", "add", []⟩], "id_b"⟩, ⟨"4.0", "id_b"⟩),
                      (⟨"", [⟨"id_a", "add", []⟩], "id_a"⟩, ⟨"4.0", "id_a"⟩)])
      = Except.ok ([(⟨"", [⟨"id_a", "add", []⟩], "id_a"⟩, (⟨"4.0", "id_a"⟩ : ToolMessage)),
                    (⟨"", [⟨"id_b", "add", []⟩], "id_b"⟩, ⟨"4.0", "id_b"⟩)].flatMap
          (fun p => [ScratchItem.call p.1, ScratchItem.obs p.2]))
    ∧ ([(⟨"", [⟨"id_a", "add", []⟩], "id_a"⟩, (⟨"4.0", "id_a"⟩ : ToolMessage)),
        (⟨"", [⟨"id_b", "add", []⟩], "id_b"⟩, ⟨"4.0", "id_b"⟩)]).all
        (fun p => p.2.tool_call_id == headCallId p.1) = true := by
  have h := tool_results_match_requests demoRegistry none
    [⟨"", [⟨"id_a", "add", []⟩], "id_a"⟩, ⟨"", [⟨"id_b", "add", []⟩], "id_b"⟩]
    [⟨"4.0", "id_a"⟩, ⟨"4.0", "id_b"⟩]
    [(⟨"", [⟨"id_b", "add", []⟩], "id_b"⟩, ⟨"4.0", "id_b"⟩),
     (⟨"", [⟨"id_a", "add", []⟩], "id_a"⟩, ⟨"4.0", "id_a"⟩)]
    rfl (List.Perm.swap _ _ _) (by decide)
    (by
      intro p hp
      rcases List.mem_cons.mp hp with h1 | h1
      · subst h1; rfl
      · rcases List.mem_cons.mp h1 with h2 | h2
        · subst h2; rfl
        · cases h2)
  exact h

/-! ## Claim C1: bounded iteration and the fallback answer -/

theorem findFinalAnswer_none (l : List AIToolMsg)
    (h : ∀ tc ∈ l, ∃ spec, tc.tool_calls.head? = some spec
      ∧ (spec.name == "final_answer") = false) :
    findFinalAnswer l = .ok none := by
  induction l with
  | nil => rfl
  | cons tc rest ih =>
    obtain ⟨spec, hspec, hname⟩ := h tc (List.mem_cons_self _ _)
    simp only [findFinalAnswer, hspec, hname]
    simp only [Bool.false_eq_true, if_false]
    exact ih (fun x hx => h x (List.mem_cons_of_mem _ hx))

theorem invokeLoopAux_no_fa (model : List ScratchItem → List AIToolMsg)
    (n2t : Name2Tool) (src : Option String)
    (hexec : ∀ sp tc, tc ∈ model sp → (execute_tool n2t src tc).isOk = true)
    (hfa : ∀ sp tc spec, tc ∈ model sp → tc.tool_calls.head? = some spec →
      (spec.name == "final_answer") = false) :
    ∀ fuel count sp, ∃ sp2,
      invokeLoopAux model n2t src fuel count sp = .ok (count + fuel, none, sp2) := by
  intro fuel
  induction fuel with
  | zero =>
    intro count sp
    exact ⟨sp, by simp [invokeLoopAux]⟩
  | succ n ih =>
    intro count sp
    obtain ⟨obs, hobs, hlen⟩ :=
      gatherExec_ok n2t src (model sp) (fun tc h => hexec sp tc h)
    have hkeys : ∀ tc ∈ model sp,
        (dictGet (dictOfPairs ((model sp).zip obs)) tc.tool_call_id).isSome = true := by
      intro tc htc
      rw [dictOfPairs_key]
      obtain ⟨b, hb⟩ := mem_zip_left (model sp) obs tc hlen.symm htc
      rw [List.any_eq_true]
      exact ⟨(tc, b), hb, by simp⟩
    obtain ⟨items, hitems⟩ := buildScratch_isOk (model sp) _ hkeys
    have hff : findFinalAnswer (model sp) = .ok none := by
      apply findFinalAnswer_none
      intro tc htc
      obtain ⟨spec, hspec⟩ := execute_tool_ok_head n2t src tc (hexec sp tc htc)
      exact ⟨spec, hspec, hfa sp tc spec htc hspec⟩
    obtain ⟨sp2, hrec⟩ := ih (count + 1) (sp ++ items)
    refine ⟨sp2, ?_⟩
    simp only [invokeLoopAux, hobs, hitems, hff, hrec]
    have hc : count + 1 + n = count + (n + 1) := by omega
    rw [hc]

/-- Claim C1: for every model oracle whose turns all execute cleanly and
never request the `final_answer` tool, `invoke` with iteration bound `N`
terminates after exactly `N` model turns (in particular within `N`) and
returns the fixed fallback payload — answer "No answer found", empty
`tools_used` list. -/
theorem invoke_fallback_within_bound (model : List ScratchItem → List AIToolMsg)
    (n2t : Name2Tool) (src : Option String) (N : Nat)
    (hexec : ∀ sp tc, tc ∈ model sp → (execute_tool n2t src tc).isOk = true)
    (hfa : ∀ sp tc spec, tc ∈ model sp → tc.tool_calls.head? = some spec →
      (spec.name == "final_answer") = false) :
    turnsOf (invokeLoopAux model n2t src N 0 []) = some N
    ∧ answerOf (invokeExec model n2t src N)
        = some (.payload "No answer found" []) := by
  obtain ⟨sp2, hloop⟩ := invokeLoopAux_no_fa model n2t src hexec hfa N 0 []
  constructor
  · rw [hloop]
    show some (0 + N) = some N
    rw [Nat.zero_add]
  · simp only [invokeExec, hloop]
    rfl

/-- Witness for C1: a model that always asks for `add(2, 2)` against a
registry where `add` succeeds runs all three turns and yields the
fallback payload. -/
theorem invoke_fallback_within_bound_witness :
    turnsOf (invokeLoopAux demoModel demoRegistry none 3 0 []) = some 3
    ∧ answerOf (invokeExec demoModel demoRegistry none 3)
        = some (.payload "No answer found" []) :=
  invoke_fallback_within_bound demoModel demoRegistry none 3
    (by
      intro sp tc h
      simp only [demoModel, List.mem_singleton] at h
      subst h
      rfl)
    (by
      intro sp tc spec h hs
      simp only [demoModel, List.mem_singleton] at h
      subst h
      simp only [List.head?_cons, Option.some.injEq] at hs
      subst hs
      rfl)

end DevDoc
